import Mathlib

/-!
The package `filestream`: an asynchronous single-file writer.

A shallow embedding of `filestream.go` (package `filestream`) and the proofs of
its lifecycle properties.

`StartStream` is a goroutine body that talks to the rest of the program through
three unbuffered channels and to the operating system through one file.  It is
embedded as a deterministic small-step machine: one call of `StartStream` below
executes the next statement of the Go function.  Everything the Go function does
not decide itself is an explicit input:

* the other goroutines are `Tick.submit`, `Tick.requestQuit` and `Tick.status`,
  which begin a send on `fs.Write`, a send on `fs.Quit`, a receive on `fs.OK`;
* the pseudo-random choice `select` makes when both of its cases can proceed is
  the `pick` argument of a step;
* the outcome of `f.WriteString` is the `io` argument of a step;
* the outcome of `os.OpenFile` is determined by the `Disk`.

An execution is a list of ticks (a schedule); its length is the fuel.  A send on
an unbuffered channel completes only when a receiver is waiting, so a step of a
blocked statement leaves the state unchanged.
-/

namespace filestream

/-- Go `string`: an immutable sequence of bytes; `len` is `List.length`. -/
abbrev GoString := List UInt8

/-- The non-nil `error` values that occur in the package. -/
inductive GoError
  /-- Line 23: the package variable `ErrStreamClosed = errors.New(...)`. -/
  | ErrStreamClosed
  /-- The `*os.PathError` that `os.OpenFile` returns, with its text. -/
  | PathError (msg : String)
deriving DecidableEq, Repr

/-- What the file system holds at one path. -/
inductive PathEntry
  /-- Opening with `O_WRONLY|O_CREATE|O_TRUNC` fails here, with this text. -/
  | unopenable (msg : String)
  /-- No file yet, in a directory where one can be created. -/
  | absent
  /-- A writable regular file with these contents. -/
  | file (contents : GoString)
deriving DecidableEq, Repr

/-- The file system: what each path holds. -/
abbrev Disk := String → PathEntry

/-- Replace the entry of one path. -/
def Disk.set (d : Disk) (name : String) (e : PathEntry) : Disk :=
  fun p => if p = name then e else d p

/-- Line 55: `os.OpenFile(filename, os.O_WRONLY|os.O_CREATE|os.O_TRUNC, 0666)`.
On success the file exists and is empty (created or truncated); on failure
the disk is as before. -/
def os_OpenFile (d : Disk) (name : String) : Except GoError Disk :=
  match d name with
  | .unopenable msg => .error (.PathError msg)
  | .absent => .ok (d.set name (.file []))
  | .file _ => .ok (d.set name (.file []))

/-- The bytes one call of `f.WriteString(out)` puts into the file: all of `out`
when the call succeeds (`io = none`), the first `k` bytes when it fails after
`k` bytes (`io = some k`). -/
def bytesWritten (out : GoString) : Option Nat → GoString
  | none => out
  | some k => out.take k

/-- The state of the handle `f`. -/
inductive Handle
  | unopened
  | opened
  | closed
deriving DecidableEq, Repr

/-- Line 66: `f.WriteString(out)` on the file opened at `name`.  The handle
was opened without `O_APPEND` on an empty file and is the only writer, so the
bytes land at the end.  A closed handle writes nothing. -/
def File_WriteString (d : Disk) (f : Handle) (name : String) (out : GoString)
    (io : Option Nat) : Disk :=
  match f, d name with
  | .opened, .file c => d.set name (.file (c ++ bytesWritten out io))
  | _, _ => d

/-- Lines 31-35: `type FileStream struct`.  Each channel is unbuffered, so
its state is the queue of goroutines blocked on it: the pending senders of
`Write` and `Quit` (oldest first, with the value each one sends) and the number
of pending receivers of `OK`. -/
structure FileStream where
  Write : List GoString
  Quit : List Int
  OK : Nat
deriving DecidableEq, Repr

/-- Lines 39-41: `NewFileStream`, three fresh channels with nobody waiting. -/
def NewFileStream : FileStream := ⟨[], [], 0⟩

/-- The statement `StartStream` executes next, by source line. -/
inductive Pc
  /-- Line 55: `f, fileErr := os.OpenFile(...)`. -/
  | l55
  /-- Line 57: `fs.OK <- fileErr`. -/
  | l57 (fileErr : GoError)
  /-- Line 58: `return` (nothing deferred yet). -/
  | l58
  /-- Line 62: `fs.OK <- nil`, after `defer f.Close()` of line 60. -/
  | l62
  /-- Line 64: `select`. -/
  | l64
  /-- Line 66: `f.WriteString(out)`. -/
  | l66 (out : GoString)
  /-- Line 68: `fs.OK <- ErrStreamClosed`. -/
  | l68
  /-- Line 69: `return`, which runs the deferred `f.Close()`. -/
  | l69
  /-- Line 71: `time.Sleep(1 * time.Second)`. -/
  | l71
  /-- StartStream has returned. -/
  | done
deriving DecidableEq, Repr

/-- What `StartStream` has done, one entry per completed operation. -/
inductive Action
  /-- The call `os.OpenFile` returned; `none` is a nil error. -/
  | openFile (name : String) (err : Option GoError)
  /-- A value was handed to a receiver on `fs.OK`; `none` is nil. -/
  | sendOK (v : Option GoError)
  /-- A payload was received from `fs.Write`. -/
  | recvWrite (out : GoString)
  /-- A token was received from `fs.Quit`. -/
  | recvQuit (n : Int)
  /-- The call `f.WriteString(out)` returned; `io = none` is success. -/
  | writeString (out : GoString) (io : Option Nat)
  /-- The call `time.Sleep` returned. -/
  | sleep
  /-- The deferred `f.Close()` ran. -/
  | close
  /-- The function returned. -/
  | ret
deriving DecidableEq, Repr

/-- One invocation of `StartStream(filename, fs)` together with its world. -/
structure State where
  filename : String
  pc : Pc
  f : Handle
  fs : FileStream
  disk : Disk
  trace : List Action

/-- The call `StartStream(filename, fs)` is about to begin. -/
def start (filename : String) (disk : Disk) : State :=
  { filename := filename, pc := .l55, f := .unopened, fs := NewFileStream,
    disk := disk, trace := [] }

/-- Lines 54-75: the next statement of `StartStream`.  `pick` is consulted
only by a `select` both of whose cases can proceed (`true` takes the `fs.Write`
case); `io` only by `f.WriteString`. -/
def StartStream (st : State) (pick : Bool) (io : Option Nat) : State :=
  match st.pc with
  | .l55 =>
    match os_OpenFile st.disk st.filename with
    | .error fileErr =>
      { st with pc := .l57 fileErr,
                trace := st.trace ++ [.openFile st.filename (some fileErr)] }
    | .ok d =>
      { st with pc := .l62, f := .opened, disk := d,
                trace := st.trace ++ [.openFile st.filename none] }
  | .l57 fileErr =>
    match st.fs.OK with
    | 0 => st
    | k + 1 =>
      { st with pc := .l58, fs := { st.fs with OK := k },
                trace := st.trace ++ [.sendOK (some fileErr)] }
  | .l58 => { st with pc := .done, trace := st.trace ++ [.ret] }
  | .l62 =>
    match st.fs.OK with
    | 0 => st
    | k + 1 =>
      { st with pc := .l64, fs := { st.fs with OK := k },
                trace := st.trace ++ [.sendOK none] }
  | .l64 =>
    match st.fs.Write, st.fs.Quit with
    | [], [] => { st with pc := .l71 }
    | out :: ws, [] =>
      { st with pc := .l66 out, fs := { st.fs with Write := ws },
                trace := st.trace ++ [.recvWrite out] }
    | [], n :: qs =>
      { st with pc := .l68, fs := { st.fs with Quit := qs },
                trace := st.trace ++ [.recvQuit n] }
    | out :: ws, n :: qs =>
      if pick then
        { st with pc := .l66 out, fs := { st.fs with Write := ws },
                  trace := st.trace ++ [.recvWrite out] }
      else
        { st with pc := .l68, fs := { st.fs with Quit := qs },
                  trace := st.trace ++ [.recvQuit n] }
  | .l66 out =>
    { st with pc := .l64,
              disk := File_WriteString st.disk st.f st.filename out io,
              trace := st.trace ++ [.writeString out io] }
  | .l68 =>
    match st.fs.OK with
    | 0 => st
    | k + 1 =>
      { st with pc := .l69, fs := { st.fs with OK := k },
                trace := st.trace ++ [.sendOK (some .ErrStreamClosed)] }
  | .l69 =>
    { st with pc := .done, f := .closed, trace := st.trace ++ [.close, .ret] }
  | .l71 => { st with pc := .l64, trace := st.trace ++ [.sleep] }
  | .done => st

/-- One event of a schedule. -/
inductive Tick
  /-- A goroutine begins `fs.Write <- s` and blocks until it is received. -/
  | submit (s : GoString)
  /-- A goroutine begins `fs.Quit <- n` and blocks until it is received. -/
  | requestQuit (n : Int)
  /-- A goroutine begins `<-fs.OK` and blocks until a value is sent. -/
  | status
  /-- The goroutine running `StartStream` executes its next statement. -/
  | step (pick : Bool) (io : Option Nat)
deriving DecidableEq, Repr

/-- The effect of one event. -/
def tick (st : State) : Tick → State
  | .submit s => { st with fs := { st.fs with Write := st.fs.Write ++ [s] } }
  | .requestQuit n => { st with fs := { st.fs with Quit := st.fs.Quit ++ [n] } }
  | .status => { st with fs := { st.fs with OK := st.fs.OK + 1 } }
  | .step pick io => StartStream st pick io

/-- Continue an execution along a schedule. -/
def runFrom (st : State) (ts : List Tick) : State := ts.foldl tick st

/-- The execution of `StartStream(filename, NewFileStream())` on `disk` along a
schedule. -/
def run (filename : String) (disk : Disk) (ts : List Tick) : State :=
  runFrom (start filename disk) ts

/-- The values sent on `fs.OK`, in order. -/
def oks : List Action → List (Option GoError)
  | [] => []
  | .sendOK v :: as => v :: oks as
  | _ :: as => oks as

/-- The payloads received from `fs.Write`, in order. -/
def accepted : List Action → List GoString
  | [] => []
  | .recvWrite out :: as => out :: accepted as
  | _ :: as => accepted as

/-- The calls of `f.WriteString` made, in order, with their outcomes. -/
def writes : List Action → List (GoString × Option Nat)
  | [] => []
  | .writeString out io :: as => (out, io) :: writes as
  | _ :: as => writes as

/-- The bytes the calls of `f.WriteString` put into the file, in order. -/
def written : List Action → GoString
  | [] => []
  | .writeString out io :: as => bytesWritten out io ++ written as
  | _ :: as => written as

/-- No call of `f.WriteString` recorded in the trace failed. -/
def noWriteFailed : List Action → Bool
  | [] => true
  | .writeString _ (some _) :: _ => false
  | _ :: as => noWriteFailed as

/-- The number of times the file was closed. -/
def closes : List Action → Nat
  | [] => 0
  | .close :: as => closes as + 1
  | _ :: as => closes as

/-- The size in bytes of the file at a path; 0 when there is no file. -/
def fileSize (d : Disk) (name : String) : Nat :=
  match d name with
  | .file c => c.length
  | _ => 0

/-- Go string concatenation `s1 + s2 + ... + sn`. -/
def concat : List GoString → GoString
  | [] => []
  | s :: ss => s ++ concat ss

/-- The sum of the byte lengths of a list of payloads. -/
def totalLen : List GoString → Nat
  | [] => 0
  | s :: ss => s.length + totalLen ss

/-- One payload after the other: each is submitted, received and written
(with success) before the next is submitted. -/
def rounds : List GoString → List Tick
  | [] => []
  | s :: ss => [.submit s, .step true none, .step true none] ++ rounds ss

/-- A caller that follows the documented protocol: wait for the first status,
submit the payloads one at a time, request quit with token `n`, and wait for
the last status. -/
def session (ss : List GoString) (n : Int) : List Tick :=
  [.status, .step true none, .step true none] ++ rounds ss
    ++ [.requestQuit n, .step true none, .status, .step true none, .step true none]

/-- The bytes of "hello ". -/
def hello : GoString := [104, 101, 108, 108, 111, 32]

/-- The bytes of "world". -/
def world : GoString := [119, 111, 114, 108, 100]

/-- A disk on which `/tmp/test_out.txt` is a file that holds the bytes of
"old" and no other path can be opened. -/
def tmpDisk : Disk := fun p =>
  if p = "/tmp/test_out.txt" then .file [111, 108, 100]
  else .unopenable "open: no such file or directory"

/-- One completed iteration of the loop of lines 63-73 that did not quit. -/
inductive Iter
  /-- The `default` case: line 71. -/
  | idle
  /-- The `fs.Write` case: lines 65-66. -/
  | wrote (out : GoString) (io : Option Nat)
deriving DecidableEq, Repr

/-- The actions of one iteration. -/
def loopActs : Iter → List Action
  | .idle => [.sleep]
  | .wrote out io => [.recvWrite out, .writeString out io]

/-- The actions of a sequence of iterations. -/
def body : List Iter → List Action
  | [] => []
  | i :: its => loopActs i ++ body its

/-- The trace of a stream that opened its file, reported nil, completed the
iterations `its` and then did `tail`. -/
def liveTrace (name : String) (its : List Iter) (tail : List Action) : List Action :=
  .openFile name none :: .sendOK none :: (body its ++ tail)

/-- Opening the path succeeds. -/
def opens (d : Disk) (name : String) : Bool :=
  match d name with
  | .unopenable _ => false
  | _ => true

/-- The stream opened its file and is at a point of the loop where the trace
ends in `tail`. -/
def Live (name : String) (d0 : Disk) (st : State) (h : Handle) (tail : List Action) : Prop :=
  opens d0 name = true ∧ ∃ its, st.trace = liveTrace name its tail ∧
    st.disk name = .file (written (body its)) ∧ st.f = h

/-- The open failed with the text `msg` and the trace so far is `tr`. -/
def Dead (name : String) (d0 : Disk) (st : State) (tr : GoError → List Action) : Prop :=
  ∃ msg, d0 name = .unopenable msg ∧ st.trace = tr (.PathError msg) ∧ st.disk = d0 ∧
    st.f = .unopened

/-- What holds of every state of `StartStream(name, fs)` started on disk `d0`:
the trace, the file and the handle at each program point. -/
def Inv (name : String) (d0 : Disk) (st : State) : Prop :=
  st.filename = name ∧
  match st.pc with
  | .l55 => st.trace = [] ∧ st.disk = d0 ∧ st.f = .unopened
  | .l57 e => Dead name d0 st (fun e0 => [.openFile name (some e0)]) ∧
      ∃ msg, d0 name = .unopenable msg ∧ e = .PathError msg
  | .l58 => Dead name d0 st (fun e0 => [.openFile name (some e0), .sendOK (some e0)])
  | .l62 => opens d0 name = true ∧ st.trace = [.openFile name none] ∧
      st.disk name = .file [] ∧ st.f = .opened
  | .l64 => Live name d0 st .opened []
  | .l71 => Live name d0 st .opened []
  | .l66 out => Live name d0 st .opened [.recvWrite out]
  | .l68 => ∃ n, Live name d0 st .opened [.recvQuit n]
  | .l69 => ∃ n, Live name d0 st .opened [.recvQuit n, .sendOK (some .ErrStreamClosed)]
  | .done =>
      Dead name d0 st (fun e0 => [.openFile name (some e0), .sendOK (some e0), .ret]) ∨
      ∃ n, Live name d0 st .closed
        [.recvQuit n, .sendOK (some .ErrStreamClosed), .close, .ret]

/-- The loop of lines 63-73 has been left for good: a quit token was received
(lines 68, 69) or the function has returned. -/
def pastLoop : Pc → Bool
  | .l68 => true
  | .l69 => true
  | .done => true
  | _ => false

/-- What `StartStream` still does before it returns once the loop is left. -/
def pendingActs : Pc → List Action
  | .l68 => [.sendOK (some .ErrStreamClosed), .close, .ret]
  | .l69 => [.close, .ret]
  | _ => []

/-- A schedule in which a producer is still waiting on `fs.Write` when a quit
token is submitted: the stream is ready, a producer submits "world". -/
def raceBefore : List Tick :=
  [.status, .step true none, .step true none, .submit world]

/-- The schedule goes on: a quit token is submitted while "world" waits, the
`select` finds both cases ready and takes the `fs.Write` case, the payload is
written, the next `select` takes the quit token, and the stream closes. -/
def raceAfter : List Tick :=
  [.requestQuit 0, .step true none, .step true none, .step true none, .status,
    .step true none, .step true none]

/-- The same event in a world where no write fails. -/
def succeed : Tick → Tick
  | .step pick _ => .step pick none
  | t => t

/-- The same action with the outcome of a write replaced by success. -/
def forget : Action → Action
  | .writeString out _ => .writeString out none
  | a => a

/-- Two executions agree on everything except the bytes on disk and the
outcomes of the writes: the second is the first with every write succeeding. -/
def Sim (a b : State) : Prop :=
  a.filename = b.filename ∧ a.pc = b.pc ∧ a.f = b.f ∧ a.fs = b.fs ∧
    a.trace.map forget = b.trace ∧ (a.pc = .l55 → a.disk = b.disk)

/-! ## The invariant -/

theorem body_append (xs ys : List Iter) : body (xs ++ ys) = body xs ++ body ys := by
  induction xs with
  | nil => rfl
  | cons i xs ih => simp [body, ih]

theorem written_append (xs ys : List Action) :
    written (xs ++ ys) = written xs ++ written ys := by
  induction xs with
  | nil => rfl
  | cons a xs ih => cases a <;> simp [written, ih]

theorem runFrom_append (st : State) (xs ys : List Tick) :
    runFrom st (xs ++ ys) = runFrom (runFrom st xs) ys := by
  simp [runFrom, List.foldl_append]

theorem run_append (name : String) (d : Disk) (xs ys : List Tick) :
    run name d (xs ++ ys) = runFrom (run name d xs) ys := by
  simp [run, runFrom_append]

theorem Inv_start (name : String) (d0 : Disk) : Inv name d0 (start name d0) := by
  simp [Inv, start]

theorem Inv_StartStream (name : String) (d0 : Disk) (st : State) (pick : Bool)
    (io : Option Nat) (h : Inv name d0 st) : Inv name d0 (StartStream st pick io) := by
  obtain ⟨filename, pc, f, fs, disk, trace⟩ := st
  obtain ⟨hn, h⟩ := h
  simp only at hn
  subst hn
  cases pc with
  | l55 =>
    simp only [Inv] at h
    obtain ⟨ht, hd, hf⟩ := h
    subst ht hd hf
    simp only [StartStream, os_OpenFile]
    cases hd : disk filename with
    | unopenable msg => simp [Inv, Dead, hd]
    | absent => simp [Inv, opens, hd, Disk.set]
    | file c => simp [Inv, opens, hd, Disk.set]
  | l57 e =>
    simp only [Inv, Dead] at h
    obtain ⟨⟨msg, hd, ht, hdisk, hf⟩, msg2, hd2, he⟩ := h
    have : msg2 = msg := by rw [hd] at hd2; injection hd2 with h; exact h.symm
    subst this
    subst he
    simp only [StartStream]
    cases hk : fs.OK with
    | zero => simp [Inv, Dead, hd, ht, hdisk, hf]
    | succ k => simp [Inv, Dead, hd, ht, hdisk, hf]
  | l58 =>
    simp only [Inv, Dead] at h
    obtain ⟨msg, hd, ht, hdisk, hf⟩ := h
    simp [StartStream, Inv, Dead, hd, ht, hdisk, hf]
  | l62 =>
    simp only [Inv] at h
    obtain ⟨ho, ht, hdisk, hf⟩ := h
    simp only [StartStream]
    cases hk : fs.OK with
    | zero => simp [Inv, ho, ht, hdisk, hf]
    | succ k =>
      simp only [Inv, Live]
      exact ⟨trivial, ho, [], by simp [ht, liveTrace, body], by simp [hdisk, body, written], hf⟩
  | l64 =>
    simp only [Inv, Live] at h
    obtain ⟨ho, its, ht, hdisk, hf⟩ := h
    simp only [StartStream]
    have hw : ∀ out, Inv filename d0
        { filename := filename, pc := .l66 out, f := f, fs := { fs with Write := fs.Write.tail },
          disk := disk, trace := trace ++ [.recvWrite out] } := by
      intro out
      simp only [Inv, Live]
      exact ⟨trivial, ho, its, by simp [ht, liveTrace], hdisk, hf⟩
    have hq : ∀ n, Inv filename d0
        { filename := filename, pc := .l68, f := f, fs := { fs with Quit := fs.Quit.tail },
          disk := disk, trace := trace ++ [.recvQuit n] } := by
      intro n
      simp only [Inv, Live]
      exact ⟨trivial, n, ho, its, by simp [ht, liveTrace], hdisk, hf⟩
    cases hW : fs.Write with
    | nil =>
      cases hQ : fs.Quit with
      | nil =>
        simp only [Inv, Live]
        exact ⟨trivial, ho, its, ht, hdisk, hf⟩
      | cons n qs => simpa [hQ] using hq n
    | cons out ws =>
      cases hQ : fs.Quit with
      | nil => simpa [hW] using hw out
      | cons n qs =>
        cases pick
        · simpa [hQ] using hq n
        · simpa [hW] using hw out
  | l66 out =>
    simp only [Inv, Live] at h
    obtain ⟨ho, its, ht, hdisk, hf⟩ := h
    simp only [StartStream, Inv, Live]
    refine ⟨trivial, ho, its ++ [.wrote out io], ?_, ?_, hf⟩
    · simp [ht, liveTrace, body_append, body, loopActs]
    · simp [File_WriteString, hf, hdisk, Disk.set, body_append, written_append, body,
        loopActs, written]
  | l68 =>
    simp only [Inv, Live] at h
    obtain ⟨n, ho, its, ht, hdisk, hf⟩ := h
    simp only [StartStream]
    cases hk : fs.OK with
    | zero =>
      simp only [Inv, Live]
      exact ⟨trivial, n, ho, its, ht, hdisk, hf⟩
    | succ k =>
      simp only [Inv, Live]
      exact ⟨trivial, n, ho, its, by simp [ht, liveTrace], hdisk, hf⟩
  | l69 =>
    simp only [Inv, Live] at h
    obtain ⟨n, ho, its, ht, hdisk, hf⟩ := h
    simp only [StartStream, Inv, Live]
    exact ⟨trivial, Or.inr ⟨n, ho, its, by simp [ht, liveTrace], hdisk, trivial⟩⟩
  | l71 =>
    simp only [Inv, Live] at h
    obtain ⟨ho, its, ht, hdisk, hf⟩ := h
    simp only [StartStream, Inv, Live]
    refine ⟨trivial, ho, its ++ [.idle], ?_, ?_, hf⟩
    · simp [ht, liveTrace, body_append, body, loopActs]
    · simp [hdisk, body_append, written_append, body, loopActs, written]
  | done => exact ⟨rfl, h⟩

theorem Inv_tick (name : String) (d0 : Disk) (st : State) (t : Tick)
    (h : Inv name d0 st) : Inv name d0 (tick st t) := by
  cases t with
  | step pick io => exact Inv_StartStream name d0 st pick io h
  | submit s => exact h
  | requestQuit n => exact h
  | status => exact h

theorem Inv_runFrom (name : String) (d0 : Disk) (ts : List Tick) (st : State)
    (h : Inv name d0 st) : Inv name d0 (runFrom st ts) := by
  induction ts generalizing st with
  | nil => exact h
  | cons t ts ih => exact ih (tick st t) (Inv_tick name d0 st t h)

theorem Inv_run (name : String) (d0 : Disk) (ts : List Tick) :
    Inv name d0 (run name d0 ts) :=
  Inv_runFrom name d0 ts _ (Inv_start name d0)

/-! ## Reading a trace -/

theorem oks_append (xs ys : List Action) : oks (xs ++ ys) = oks xs ++ oks ys := by
  induction xs with
  | nil => rfl
  | cons a xs ih => cases a <;> simp [oks, ih]

theorem accepted_append (xs ys : List Action) :
    accepted (xs ++ ys) = accepted xs ++ accepted ys := by
  induction xs with
  | nil => rfl
  | cons a xs ih => cases a <;> simp [accepted, ih]

theorem writes_append (xs ys : List Action) :
    writes (xs ++ ys) = writes xs ++ writes ys := by
  induction xs with
  | nil => rfl
  | cons a xs ih => cases a <;> simp [writes, ih]

theorem closes_append (xs ys : List Action) :
    closes (xs ++ ys) = closes xs + closes ys := by
  induction xs with
  | nil => simp [closes]
  | cons a xs ih => cases a <;> simp [closes, ih]; omega

theorem noWriteFailed_append (xs ys : List Action) :
    noWriteFailed (xs ++ ys) = (noWriteFailed xs && noWriteFailed ys) := by
  induction xs with
  | nil => simp [noWriteFailed]
  | cons a xs ih =>
    cases a with
    | writeString out io => cases io <;> simp [noWriteFailed, ih]
    | _ => simp [noWriteFailed, ih]

theorem oks_body (its : List Iter) : oks (body its) = [] := by
  induction its with
  | nil => rfl
  | cons i its ih => cases i <;> simp [body, loopActs, oks, ih]

theorem closes_body (its : List Iter) : closes (body its) = 0 := by
  induction its with
  | nil => rfl
  | cons i its ih => cases i <;> simp [body, loopActs, closes, ih]

theorem written_body_of_noWriteFailed (its : List Iter)
    (h : noWriteFailed (body its) = true) :
    written (body its) = concat (accepted (body its)) := by
  induction its with
  | nil => rfl
  | cons i its ih =>
    cases i with
    | idle =>
      simp only [body, loopActs, List.singleton_append, noWriteFailed] at h
      simp [body, loopActs, written, accepted, ih h]
    | wrote out io =>
      cases io with
      | none =>
        simp only [body, loopActs, List.cons_append, List.nil_append, noWriteFailed] at h
        simp [body, loopActs, written, accepted, concat, bytesWritten, ih h]
      | some k => simp [body, loopActs, noWriteFailed] at h

theorem length_concat (ss : List GoString) : (concat ss).length = totalLen ss := by
  induction ss with
  | nil => rfl
  | cons s ss ih => simp [concat, totalLen, ih]

theorem oks_liveTrace (name : String) (its : List Iter) (tail : List Action) :
    oks (liveTrace name its tail) = none :: oks tail := by
  simp [liveTrace, oks, oks_append, oks_body]

theorem accepted_liveTrace (name : String) (its : List Iter) (tail : List Action) :
    accepted (liveTrace name its tail) = accepted (body its) ++ accepted tail := by
  simp [liveTrace, accepted, accepted_append]

theorem noWriteFailed_liveTrace (name : String) (its : List Iter) (tail : List Action) :
    noWriteFailed (liveTrace name its tail)
      = (noWriteFailed (body its) && noWriteFailed tail) := by
  simp [liveTrace, noWriteFailed, noWriteFailed_append]

theorem not_opens_of_unopenable (d : Disk) (name msg : String)
    (h : d name = .unopenable msg) : opens d name = false := by
  simp [opens, h]

/-! ## The documented session runs to completion -/

theorem runFrom_rounds (ss : List GoString) (st : State)
    (hpc : st.pc = .l64) (hfs : st.fs = NewFileStream) :
    (runFrom st (rounds ss)).pc = .l64 ∧ (runFrom st (rounds ss)).fs = NewFileStream ∧
    (runFrom st (rounds ss)).trace
      = st.trace ++ body (ss.map (fun s => Iter.wrote s none)) := by
  induction ss generalizing st with
  | nil => simp [rounds, runFrom, body, hpc, hfs]
  | cons s ss ih =>
    obtain ⟨filename, pc, f, fs, disk, trace⟩ := st
    simp only at hpc hfs
    subst hpc hfs
    rw [rounds, runFrom_append]
    have h := ih (runFrom ⟨filename, .l64, f, NewFileStream, disk, trace⟩
      [.submit s, .step true none, .step true none])
      (by simp [runFrom, tick, StartStream, NewFileStream])
      (by simp [runFrom, tick, StartStream, NewFileStream])
    refine ⟨h.1, h.2.1, ?_⟩
    rw [h.2.2]
    simp [runFrom, tick, StartStream, NewFileStream, body, loopActs]

theorem run_session (name : String) (d : Disk) (ss : List GoString) (n : Int)
    (hopen : opens d name = true) :
    (run name d (session ss n)).pc = .done ∧
    (run name d (session ss n)).trace
      = liveTrace name (ss.map (fun s => Iter.wrote s none))
          [.recvQuit n, .sendOK (some .ErrStreamClosed), .close, .ret] := by
  have h0 : (run name d [.status, .step true none, .step true none]).pc = .l64 ∧
      (run name d [.status, .step true none, .step true none]).fs = NewFileStream ∧
      (run name d [.status, .step true none, .step true none]).trace
        = [.openFile name none, .sendOK none] := by
    unfold opens at hopen
    cases hd : d name with
    | unopenable msg => simp [hd] at hopen
    | absent => simp [run, runFrom, tick, StartStream, start, os_OpenFile, hd, NewFileStream]
    | file c => simp [run, runFrom, tick, StartStream, start, os_OpenFile, hd, NewFileStream]
  have h1 := runFrom_rounds ss _ h0.1 h0.2.1
  rw [h0.2.2] at h1
  rw [session, run_append, run_append]
  generalize runFrom (run name d [.status, .step true none, .step true none]) (rounds ss)
    = st at h1
  obtain ⟨filename, pc, f, fs, disk, trace⟩ := st
  obtain ⟨hpc, hfs, ht⟩ := h1
  simp only at hpc hfs ht
  subst hpc hfs ht
  simp [runFrom, tick, StartStream, NewFileStream, liveTrace]

theorem accepted_body_wrote (ss : List GoString) :
    accepted (body (ss.map (fun s => Iter.wrote s none))) = ss := by
  induction ss with
  | nil => rfl
  | cons s ss ih => simp [body, loopActs, accepted, ih]

theorem noWriteFailed_body_wrote (ss : List GoString) :
    noWriteFailed (body (ss.map (fun s => Iter.wrote s none))) = true := by
  induction ss with
  | nil => rfl
  | cons s ss ih => simp [body, loopActs, noWriteFailed, ih]

theorem disk_of_returned (name : String) (d : Disk) (ts : List Tick)
    (hopen : opens d name = true) (hret : (run name d ts).pc = .done)
    (hok : noWriteFailed (run name d ts).trace = true) :
    (run name d ts).disk name = .file (concat (accepted (run name d ts).trace)) := by
  have hinv := Inv_run name d ts
  generalize run name d ts = st at hinv hret hok
  obtain ⟨filename, pc, f, fs, disk, trace⟩ := st
  simp only at hret
  subst hret
  obtain ⟨-, h⟩ := hinv
  simp only [Inv, Dead, Live] at h
  rcases h with ⟨msg, hd, -⟩ | ⟨n, -, its, ht, hdisk, -⟩
  · simp [not_opens_of_unopenable d name msg hd] at hopen
  · simp only at hok ⊢
    rw [ht, noWriteFailed_liveTrace] at hok
    simp only [Bool.and_eq_true] at hok
    rw [hdisk, ht, accepted_liveTrace, written_body_of_noWriteFailed its hok.1]
    simp [accepted]

/-! ## Executions whose open fails -/

/-- The states an execution can be in when the open fails. -/
theorem failed_cases (name : String) (d : Disk) (msg : String)
    (hfail : d name = .unopenable msg) (st : State) (hinv : Inv name d st) :
    st.filename = name ∧ st.disk = d ∧ st.f = .unopened ∧
    ((st.pc = .l55 ∧ st.trace = []) ∨
     (st.pc = .l57 (.PathError msg) ∧ st.trace = [.openFile name (some (.PathError msg))]) ∨
     (st.pc = .l58 ∧ st.trace = [.openFile name (some (.PathError msg)),
        .sendOK (some (.PathError msg))]) ∨
     (st.pc = .done ∧ st.trace = [.openFile name (some (.PathError msg)),
        .sendOK (some (.PathError msg)), .ret])) := by
  have hno := not_opens_of_unopenable d name msg hfail
  obtain ⟨filename, pc, f, fs, disk, trace⟩ := st
  obtain ⟨hn, h⟩ := hinv
  simp only at hn
  subst hn
  have hmsg : ∀ m, d filename = .unopenable m → m = msg := by
    intro m hm
    rw [hfail] at hm
    injection hm with h'
    exact h'.symm
  cases pc with
  | l55 => simp only [Inv] at h; simp [h.1, h.2.1, h.2.2]
  | l57 e =>
    simp only [Inv, Dead] at h
    obtain ⟨⟨m, hd, ht, hdisk, hf⟩, m2, hd2, he⟩ := h
    have h1 := hmsg m hd
    have h2 := hmsg m2 hd2
    subst h1 h2
    simp [ht, hdisk, hf, he]
  | l58 =>
    simp only [Inv, Dead] at h
    obtain ⟨m, hd, ht, hdisk, hf⟩ := h
    have := hmsg m hd
    subst this
    simp [ht, hdisk, hf]
  | done =>
    simp only [Inv, Dead, Live] at h
    rcases h with ⟨m, hd, ht, hdisk, hf⟩ | ⟨n, ho, -⟩
    · have := hmsg m hd
      subst this
      simp [ht, hdisk, hf]
    · simp [hno] at ho
  | l62 => simp only [Inv] at h; simp [hno] at h
  | l64 => simp only [Inv, Live] at h; simp [hno] at h
  | l71 => simp only [Inv, Live] at h; simp [hno] at h
  | l66 out => simp only [Inv, Live] at h; simp [hno] at h
  | l68 => simp only [Inv, Live] at h; simp [hno] at h
  | l69 => simp only [Inv, Live] at h; simp [hno] at h

/-- The states an execution can be in when the open succeeds. -/
theorem opened_cases (name : String) (d : Disk) (hopen : opens d name = true)
    (st : State) (hinv : Inv name d st) :
    (st.pc = .l55 ∧ st.trace = [] ∧ st.f = .unopened) ∨
    (st.pc = .l62 ∧ st.trace = [.openFile name none] ∧ st.f = .opened ∧
      st.disk name = .file []) ∨
    (∃ its tail, st.trace = liveTrace name its tail ∧
      st.disk name = .file (written (body its)) ∧
      ((st.pc = .l64 ∧ tail = [] ∧ st.f = .opened) ∨
       (st.pc = .l71 ∧ tail = [] ∧ st.f = .opened) ∨
       (∃ out, st.pc = .l66 out ∧ tail = [.recvWrite out] ∧ st.f = .opened) ∨
       (∃ n, st.pc = .l68 ∧ tail = [.recvQuit n] ∧ st.f = .opened) ∨
       (∃ n, st.pc = .l69 ∧ tail = [.recvQuit n, .sendOK (some .ErrStreamClosed)] ∧
          st.f = .opened) ∨
       (∃ n, st.pc = .done ∧
          tail = [.recvQuit n, .sendOK (some .ErrStreamClosed), .close, .ret] ∧
          st.f = .closed))) := by
  obtain ⟨filename, pc, f, fs, disk, trace⟩ := st
  obtain ⟨hn, h⟩ := hinv
  have hno : ∀ m, d name ≠ .unopenable m := by
    intro m hm
    simp [not_opens_of_unopenable d name m hm] at hopen
  cases pc with
  | l55 => simp only [Inv] at h; simp [h.1, h.2.2]
  | l57 e =>
    simp only [Inv, Dead] at h
    obtain ⟨⟨m, hd, -⟩, -⟩ := h
    exact absurd hd (hno m)
  | l58 =>
    simp only [Inv, Dead] at h
    obtain ⟨m, hd, -⟩ := h
    exact absurd hd (hno m)
  | l62 => simp only [Inv] at h; simp [h.2.1, h.2.2.1, h.2.2.2]
  | l64 =>
    simp only [Inv, Live] at h
    obtain ⟨-, its, ht, hdisk, hf⟩ := h
    exact Or.inr (Or.inr ⟨its, [], ht, hdisk, by simp [hf]⟩)
  | l71 =>
    simp only [Inv, Live] at h
    obtain ⟨-, its, ht, hdisk, hf⟩ := h
    exact Or.inr (Or.inr ⟨its, [], ht, hdisk, by simp [hf]⟩)
  | l66 out =>
    simp only [Inv, Live] at h
    obtain ⟨-, its, ht, hdisk, hf⟩ := h
    exact Or.inr (Or.inr ⟨its, _, ht, hdisk, by simp [hf]⟩)
  | l68 =>
    simp only [Inv, Live] at h
    obtain ⟨n, -, its, ht, hdisk, hf⟩ := h
    exact Or.inr (Or.inr ⟨its, _, ht, hdisk, by simp [hf]⟩)
  | l69 =>
    simp only [Inv, Live] at h
    obtain ⟨n, -, its, ht, hdisk, hf⟩ := h
    exact Or.inr (Or.inr ⟨its, _, ht, hdisk, by simp [hf]⟩)
  | done =>
    simp only [Inv, Dead, Live] at h
    rcases h with ⟨m, hd, -⟩ | ⟨n, -, its, ht, hdisk, hf⟩
    · exact absurd hd (hno m)
    · exact Or.inr (Or.inr ⟨its, _, ht, hdisk, by simp [hf]⟩)

/-- Once a receiver waits on `fs.OK`, two steps take a stream whose open
succeeds past its first report. -/
theorem reported_after (name : String) (d : Disk) (hopen : opens d name = true)
    (st : State) (hinv : Inv name d st) (pick : Bool) (io : Option Nat) :
    (runFrom st [.status, .step pick io, .step pick io]).pc ≠ .l55 ∧
    (runFrom st [.status, .step pick io, .step pick io]).pc ≠ .l62 := by
  obtain ⟨filename, pc, f, fs, disk, trace⟩ := st
  obtain ⟨fW, fQ, fOK⟩ := fs
  obtain ⟨hn, h⟩ := hinv
  simp only at hn
  subst hn
  cases pc with
  | l55 =>
    simp only [Inv] at h
    obtain ⟨-, hd, -⟩ := h
    subst hd
    unfold opens at hopen
    cases hd : disk filename <;>
      simp [hd, runFrom, tick, StartStream, os_OpenFile] at hopen ⊢
  | l57 e => simp [runFrom, tick, StartStream]
  | l58 => simp [runFrom, tick, StartStream]
  | l68 => simp [runFrom, tick, StartStream]
  | l69 => simp [runFrom, tick, StartStream]
  | done => simp [runFrom, tick, StartStream]
  | _ =>
    clear h
    cases fW <;> cases fQ <;> cases pick <;> simp [runFrom, tick, StartStream]

/-! ## After the quit token -/

theorem pastLoop_tick (st : State) (t : Tick) (h : pastLoop st.pc = true) :
    pastLoop (tick st t).pc = true ∧
    (tick st t).trace ++ pendingActs (tick st t).pc = st.trace ++ pendingActs st.pc ∧
    (tick st t).disk = st.disk ∧ st.fs.Write <+: (tick st t).fs.Write := by
  obtain ⟨filename, pc, f, fs, disk, trace⟩ := st
  cases t with
  | submit s => simpa [tick] using h
  | requestQuit n => simpa [tick] using h
  | status => simpa [tick] using h
  | step pick io =>
    cases pc with
    | l68 => cases hk : fs.OK <;> simp [tick, StartStream, hk, pastLoop, pendingActs]
    | l69 => simp [tick, StartStream, pastLoop, pendingActs]
    | done => simp [tick, StartStream, pastLoop, pendingActs]
    | _ => simp [pastLoop] at h

theorem pastLoop_runFrom (ts : List Tick) (st : State) (h : pastLoop st.pc = true) :
    pastLoop (runFrom st ts).pc = true ∧
    (runFrom st ts).trace ++ pendingActs (runFrom st ts).pc
      = st.trace ++ pendingActs st.pc ∧
    (runFrom st ts).disk = st.disk ∧ st.fs.Write <+: (runFrom st ts).fs.Write := by
  induction ts generalizing st with
  | nil => simp [runFrom, h]
  | cons t ts ih =>
    obtain ⟨h1, h2, h3, h4⟩ := pastLoop_tick st t h
    obtain ⟨k1, k2, k3, k4⟩ := ih (tick st t) h1
    exact ⟨k1, k2.trans h2, k3.trans h3, h4.trans k4⟩

theorem recvQuit_not_mem_body (its : List Iter) (n : Int) : Action.recvQuit n ∉ body its := by
  induction its with
  | nil => simp [body]
  | cons i its ih => cases i <;> simp [body, loopActs, ih]

theorem pastLoop_of_recvQuit (name : String) (d : Disk) (st : State)
    (hinv : Inv name d st) (n : Int) (hq : Action.recvQuit n ∈ st.trace) :
    pastLoop st.pc = true := by
  obtain ⟨filename, pc, f, fs, disk, trace⟩ := st
  obtain ⟨-, h⟩ := hinv
  simp only at hq
  cases pc with
  | l68 => rfl
  | l69 => rfl
  | done => rfl
  | l55 => simp only [Inv] at h; simp [h.1] at hq
  | l57 e =>
    simp only [Inv, Dead] at h
    obtain ⟨⟨m, -, ht, -⟩, -⟩ := h
    simp [ht] at hq
  | l58 =>
    simp only [Inv, Dead] at h
    obtain ⟨m, -, ht, -⟩ := h
    simp [ht] at hq
  | l62 => simp only [Inv] at h; simp [h.2.1] at hq
  | l64 =>
    simp only [Inv, Live] at h
    obtain ⟨-, its, ht, -⟩ := h
    simp [ht, liveTrace, recvQuit_not_mem_body] at hq
  | l71 =>
    simp only [Inv, Live] at h
    obtain ⟨-, its, ht, -⟩ := h
    simp [ht, liveTrace, recvQuit_not_mem_body] at hq
  | l66 out =>
    simp only [Inv, Live] at h
    obtain ⟨-, its, ht, -⟩ := h
    simp [ht, liveTrace, recvQuit_not_mem_body] at hq

theorem getLast?_liveTrace (name : String) (its : List Iter) (xs : List Action)
    (y : Action) : (liveTrace name its (xs ++ [y])).getLast? = some y := by
  have : liveTrace name its (xs ++ [y])
      = (.openFile name none :: .sendOK none :: (body its ++ xs)) ++ [y] := by
    simp [liveTrace]
  rw [this, List.getLast?_concat]

/-- The state right after a quit token was received is at line 68, with
only nil reported so far. -/
theorem l68_of_last_recvQuit (name : String) (d : Disk) (st : State)
    (hinv : Inv name d st) (n : Int) (hq : st.trace.getLast? = some (.recvQuit n)) :
    st.pc = .l68 ∧ oks st.trace = [none] := by
  have hp := pastLoop_of_recvQuit name d st hinv n (List.mem_of_getLast?_eq_some hq)
  obtain ⟨filename, pc, f, fs, disk, trace⟩ := st
  obtain ⟨-, h⟩ := hinv
  simp only at hq
  cases pc with
  | l68 =>
    simp only [Inv, Live] at h
    obtain ⟨m, -, its, ht, -⟩ := h
    simp [ht, oks_liveTrace, oks]
  | l69 =>
    simp only [Inv, Live] at h
    obtain ⟨m, -, its, ht, -⟩ := h
    have hl := getLast?_liveTrace name its [.recvQuit m] (.sendOK (some .ErrStreamClosed))
    rw [ht] at hq
    simp only [List.singleton_append] at hl
    rw [hl] at hq
    simp at hq
  | done =>
    simp only [Inv, Dead, Live] at h
    rcases h with ⟨m, -, ht, -⟩ | ⟨m, -, its, ht, -⟩
    · simp [ht] at hq
    · have hl := getLast?_liveTrace name its
        [.recvQuit m, .sendOK (some .ErrStreamClosed), .close] .ret
      rw [ht] at hq
      simp only [List.cons_append, List.nil_append] at hl
      rw [hl] at hq
      simp at hq
  | _ => simp [pastLoop] at hp

theorem accepted_pendingActs (pc : Pc) : accepted (pendingActs pc) = [] := by
  cases pc <;> rfl

theorem writes_pendingActs (pc : Pc) : writes (pendingActs pc) = [] := by
  cases pc <;> rfl

theorem written_pendingActs (pc : Pc) : written (pendingActs pc) = [] := by
  cases pc <;> rfl

/-! ## Failed writes -/

theorem Sim_tick (a b : State) (t : Tick) (h : Sim a b) :
    Sim (tick a t) (tick b (succeed t)) := by
  obtain ⟨filename, pc, f, fs, disk, trace⟩ := a
  obtain ⟨filename2, pc2, f2, fs2, disk2, trace2⟩ := b
  obtain ⟨h1, h2, h3, h4, h5, h6⟩ := h
  simp only at h1 h2 h3 h4 h5 h6
  subst h1 h2 h3 h4 h5
  cases t with
  | submit s => exact ⟨rfl, rfl, rfl, rfl, rfl, h6⟩
  | requestQuit n => exact ⟨rfl, rfl, rfl, rfl, rfl, h6⟩
  | status => exact ⟨rfl, rfl, rfl, rfl, rfl, h6⟩
  | step pick io =>
    obtain ⟨fW, fQ, fOK⟩ := fs
    cases pc with
    | l55 =>
      have hd := h6 rfl
      subst hd
      cases ho : os_OpenFile disk filename <;>
        simp [Sim, tick, succeed, StartStream, ho, forget]
    | l57 e => cases fOK <;> simp [Sim, tick, succeed, StartStream, forget]
    | l58 => simp [Sim, tick, succeed, StartStream, forget]
    | l62 => cases fOK <;> simp [Sim, tick, succeed, StartStream, forget]
    | l64 =>
      cases fW <;> cases fQ <;> cases pick <;>
        simp [Sim, tick, succeed, StartStream, forget]
    | l66 out => simp [Sim, tick, succeed, StartStream, forget]
    | l68 => cases fOK <;> simp [Sim, tick, succeed, StartStream, forget]
    | l69 => simp [Sim, tick, succeed, StartStream, forget]
    | l71 => simp [Sim, tick, succeed, StartStream, forget]
    | done => simp [Sim, tick, succeed, StartStream]

theorem Sim_runFrom (ts : List Tick) (a b : State) (h : Sim a b) :
    Sim (runFrom a ts) (runFrom b (ts.map succeed)) := by
  induction ts generalizing a b with
  | nil => exact h
  | cons t ts ih => exact ih _ _ (Sim_tick a b t h)

theorem oks_map_forget (tr : List Action) : oks (tr.map forget) = oks tr := by
  induction tr with
  | nil => rfl
  | cons a tr ih => cases a <;> simp [oks, forget, ih]

theorem accepted_map_forget (tr : List Action) :
    accepted (tr.map forget) = accepted tr := by
  induction tr with
  | nil => rfl
  | cons a tr ih => cases a <;> simp [accepted, forget, ih]

/-! ## The size of the file -/

theorem fileSize_write (name : String) (d : Disk) (st : State) (hinv : Inv name d st)
    (out : GoString) (hpc : st.pc = .l66 out) (pick : Bool) (io : Option Nat) :
    fileSize (StartStream st pick io).disk name
      = fileSize st.disk name + (bytesWritten out io).length := by
  obtain ⟨filename, pc, f, fs, disk, trace⟩ := st
  simp only at hpc
  subst hpc
  obtain ⟨hn, h⟩ := hinv
  simp only at hn
  subst hn
  simp only [Inv, Live] at h
  obtain ⟨-, its, -, hdisk, hf⟩ := h
  simp [StartStream, File_WriteString, hf, hdisk, fileSize, Disk.set]

theorem disk_tick_of_not_write (st : State) (t : Tick) (h55 : st.pc ≠ .l55)
    (h66 : ∀ out, st.pc ≠ .l66 out) : (tick st t).disk = st.disk := by
  obtain ⟨filename, pc, f, fs, disk, trace⟩ := st
  obtain ⟨fW, fQ, fOK⟩ := fs
  cases t with
  | submit s => rfl
  | requestQuit n => rfl
  | status => rfl
  | step pick io =>
    cases pc with
    | l55 => exact absurd rfl h55
    | l66 out => exact absurd rfl (h66 out)
    | l64 => cases fW <;> cases fQ <;> cases pick <;> simp [tick, StartStream]
    | l57 e => cases fOK <;> simp [tick, StartStream]
    | l62 => cases fOK <;> simp [tick, StartStream]
    | l68 => cases fOK <;> simp [tick, StartStream]
    | _ => simp [tick, StartStream]

theorem run_snoc (name : String) (d : Disk) (ts : List Tick) (t : Tick) :
    run name d (ts ++ [t]) = tick (run name d ts) t := by
  rw [run_append]
  rfl

/-! ## The claims -/

/-- C1 (order preservation): when the open succeeds, every execution that has
returned without a failed write leaves in the output file exactly the
concatenation of the payloads it accepted from `fs.Write`, in acceptance order,
whatever the file held before; and the documented session that submits
`s1..sn` one at a time and then requests quit does return, having accepted
exactly `s1..sn`, so the file holds `s1+...+sn`. -/
theorem file_contents_eq_concat_of_accepted (name : String) (d : Disk)
    (hopen : opens d name = true) :
    (∀ ts, (run name d ts).pc = .done → noWriteFailed (run name d ts).trace = true →
      (run name d ts).disk name = .file (concat (accepted (run name d ts).trace))) ∧
    (∀ ss n, (run name d (session ss n)).pc = .done ∧
      accepted (run name d (session ss n)).trace = ss ∧
      (run name d (session ss n)).disk name = .file (concat ss)) := by
  refine ⟨fun ts hret hok => disk_of_returned name d ts hopen hret hok, fun ss n => ?_⟩
  obtain ⟨hpc, ht⟩ := run_session name d ss n hopen
  have hacc : accepted (run name d (session ss n)).trace = ss := by
    rw [ht, accepted_liveTrace, accepted_body_wrote]
    simp [accepted]
  have hok : noWriteFailed (run name d (session ss n)).trace = true := by
    rw [ht, noWriteFailed_liveTrace, noWriteFailed_body_wrote]
    simp [noWriteFailed]
  refine ⟨hpc, hacc, ?_⟩
  rw [disk_of_returned name d _ hopen hpc hok, hacc]

/-- Witness of C1: "hello " then "world" then quit, on a disk where the output
file already holds other bytes, gives a file holding "hello world". -/
theorem file_contents_eq_concat_of_accepted_witness :
    opens tmpDisk "/tmp/test_out.txt" = true ∧
    (run "/tmp/test_out.txt" tmpDisk (session [hello, world] 0)).pc = .done ∧
    noWriteFailed (run "/tmp/test_out.txt" tmpDisk (session [hello, world] 0)).trace = true ∧
    (run "/tmp/test_out.txt" tmpDisk (session [hello, world] 0)).disk "/tmp/test_out.txt"
      = .file (concat (accepted
          (run "/tmp/test_out.txt" tmpDisk (session [hello, world] 0)).trace)) ∧
    concat (accepted (run "/tmp/test_out.txt" tmpDisk (session [hello, world] 0)).trace)
      = [104, 101, 108, 108, 111, 32, 119, 111, 114, 108, 100] :=
  ⟨by decide, by decide, by decide,
   (file_contents_eq_concat_of_accepted "/tmp/test_out.txt" tmpDisk (by decide)).1
     (session [hello, world] 0) (by decide) (by decide),
   by decide⟩

/-- C2 (status reports): in every execution the values sent on `fs.OK` are a
prefix of `[openError]` when the open fails, of `[nil, ErrStreamClosed]` when it
succeeds; in every execution that has returned they are exactly `[openError]`
or exactly `[nil, ErrStreamClosed]`. -/
theorem ok_reports_sequence (name : String) (d : Disk) (ts : List Tick) :
    ((∃ msg, d name = .unopenable msg ∧
        oks (run name d ts).trace <+: [some (.PathError msg)]) ∨
      (opens d name = true ∧
        oks (run name d ts).trace <+: [none, some .ErrStreamClosed])) ∧
    ((run name d ts).pc = .done →
      (∃ msg, d name = .unopenable msg ∧
        oks (run name d ts).trace = [some (.PathError msg)]) ∨
      (opens d name = true ∧
        oks (run name d ts).trace = [none, some .ErrStreamClosed])) := by
  have hinv := Inv_run name d ts
  generalize run name d ts = st at hinv
  cases hd : d name with
  | unopenable msg =>
    obtain ⟨-, -, -, h⟩ := failed_cases name d msg hd st hinv
    rcases h with ⟨hpc, ht⟩ | ⟨hpc, ht⟩ | ⟨hpc, ht⟩ | ⟨hpc, ht⟩ <;>
      simp [hpc, ht, oks, List.prefix_cons_iff]
  | _ =>
    have hopen : opens d name = true := by simp [opens, hd]
    rcases opened_cases name d hopen st hinv with
      ⟨hpc, ht, -⟩ | ⟨hpc, ht, -⟩ | ⟨its, tail, ht, -, h⟩
    · simp [hpc, ht, oks, hopen]
    · simp [hpc, ht, oks, hopen]
    · rw [ht, oks_liveTrace]
      rcases h with ⟨hpc, htl, -⟩ | ⟨hpc, htl, -⟩ | ⟨out, hpc, htl, -⟩ | ⟨n, hpc, htl, -⟩ |
        ⟨n, hpc, htl, -⟩ | ⟨n, hpc, htl, -⟩ <;>
        simp [hpc, htl, oks, hopen, List.prefix_cons_iff]

/-- Witness of C2: the documented session returns after the two reports
`nil` and `ErrStreamClosed`. -/
theorem ok_reports_sequence_witness :
    (run "/tmp/test_out.txt" tmpDisk (session [hello] 7)).pc = .done ∧
    ((∃ msg, tmpDisk "/tmp/test_out.txt" = .unopenable msg ∧
        oks (run "/tmp/test_out.txt" tmpDisk (session [hello] 7)).trace
          = [some (.PathError msg)]) ∨
      (opens tmpDisk "/tmp/test_out.txt" = true ∧
        oks (run "/tmp/test_out.txt" tmpDisk (session [hello] 7)).trace
          = [none, some .ErrStreamClosed])) :=
  ⟨by decide,
   (ok_reports_sequence "/tmp/test_out.txt" tmpDisk (session [hello] 7)).2 (by decide)⟩

/-- C3 (open failure): when opening the path fails with error `e`, every
execution does a prefix of "open fails, send `e` on `fs.OK`, return" and nothing
else (no receive from `fs.Write` or `fs.Quit`, no other report, no write, no
close), the disk stays as it was and no handle exists; and from any point of
any execution, once a receiver waits on `fs.OK`, three steps are enough for
`StartStream` to have sent exactly `e` and returned. -/
theorem open_failure_reports_error_and_returns (name : String) (d : Disk) (msg : String)
    (hfail : d name = .unopenable msg) (ts : List Tick) :
    (run name d ts).trace <+:
      [.openFile name (some (.PathError msg)), .sendOK (some (.PathError msg)), .ret] ∧
    (run name d ts).disk = d ∧ (run name d ts).f = .unopened ∧
    (∀ pick io,
      (run name d (ts ++ [.status, .step pick io, .step pick io, .step pick io])).pc
        = .done ∧
      (run name d (ts ++ [.status, .step pick io, .step pick io, .step pick io])).trace
        = [.openFile name (some (.PathError msg)), .sendOK (some (.PathError msg)), .ret] ∧
      oks (run name d (ts ++ [.status, .step pick io, .step pick io, .step pick io])).trace
        = [some (.PathError msg)]) := by
  have hinv := Inv_run name d ts
  have hlive : ∀ pick io,
      (run name d (ts ++ [.status, .step pick io, .step pick io, .step pick io])).pc
        = .done ∧
      (run name d (ts ++ [.status, .step pick io, .step pick io, .step pick io])).trace
        = [.openFile name (some (.PathError msg)), .sendOK (some (.PathError msg)),
            .ret] := by
    intro pick io
    rw [run_append]
    generalize run name d ts = st at hinv
    obtain ⟨hn, hdisk, hf, h⟩ := failed_cases name d msg hfail st hinv
    obtain ⟨filename, pc, f, fs, disk, trace⟩ := st
    simp only at hn hdisk hf h
    subst hn hdisk hf
    rcases h with ⟨hpc, ht⟩ | ⟨hpc, ht⟩ | ⟨hpc, ht⟩ | ⟨hpc, ht⟩ <;> subst hpc ht <;>
      simp [runFrom, tick, StartStream, os_OpenFile, hfail]
  refine ⟨?_, ?_, ?_, fun pick io => ⟨(hlive pick io).1, (hlive pick io).2, ?_⟩⟩
  · generalize run name d ts = st at hinv
    obtain ⟨-, -, -, h⟩ := failed_cases name d msg hfail st hinv
    rcases h with ⟨-, ht⟩ | ⟨-, ht⟩ | ⟨-, ht⟩ | ⟨-, ht⟩ <;>
      simp [ht, List.prefix_cons_iff]
  · exact (failed_cases name d msg hfail _ hinv).2.1
  · exact (failed_cases name d msg hfail _ hinv).2.2.1
  · rw [(hlive pick io).2]
    simp [oks]

/-- Witness of C3: a path in a directory that does not exist. -/
theorem open_failure_reports_error_and_returns_witness :
    tmpDisk "/nonexistent_dir/out.txt" = .unopenable "open: no such file or directory" ∧
    oks (run "/nonexistent_dir/out.txt" tmpDisk
      ([] ++ [.status, .step true none, .step true none, .step true none])).trace
      = [some (.PathError "open: no such file or directory")] :=
  ⟨by decide,
   ((open_failure_reports_error_and_returns "/nonexistent_dir/out.txt" tmpDisk
      "open: no such file or directory" (by decide) []).2.2.2 true none).2.2⟩

/-- C4 (ready signal): when opening the path succeeds, the trace of every
execution is empty, or is the open alone, or begins with the open followed by
the report of nil on `fs.OK`: no payload and no quit token is received before
nil has been sent.  From any point of any execution, once a receiver waits on
`fs.OK`, two steps are enough for the first report to have been made, and it is
nil. -/
theorem open_success_reports_nil_first (name : String) (d : Disk)
    (hopen : opens d name = true) (ts : List Tick) :
    ((run name d ts).trace = [] ∨ (run name d ts).trace = [.openFile name none] ∨
      ∃ rest, (run name d ts).trace = .openFile name none :: .sendOK none :: rest) ∧
    (∀ pick io,
      (oks (run name d (ts ++ [.status, .step pick io, .step pick io])).trace).head?
        = some none) := by
  have hinv := Inv_run name d ts
  constructor
  · rcases opened_cases name d hopen _ hinv with ⟨-, ht, -⟩ | ⟨-, ht, -⟩ | ⟨its, tail, ht, -⟩
    · exact Or.inl ht
    · exact Or.inr (Or.inl ht)
    · exact Or.inr (Or.inr ⟨_, ht⟩)
  · intro pick io
    have hinv2 := Inv_run name d (ts ++ [.status, .step pick io, .step pick io])
    have hrep := reported_after name d hopen _ hinv pick io
    rw [← run_append] at hrep
    rcases opened_cases name d hopen _ hinv2 with
      ⟨hpc, -⟩ | ⟨hpc, -⟩ | ⟨its, tail, ht, -⟩
    · exact absurd hpc hrep.1
    · exact absurd hpc hrep.2
    · rw [ht, oks_liveTrace]
      rfl

/-- Witness of C4: the first status of a stream on a writable path. -/
theorem open_success_reports_nil_first_witness :
    opens tmpDisk "/tmp/test_out.txt" = true ∧
    (oks (run "/tmp/test_out.txt" tmpDisk
      ([] ++ [.status, .step true none, .step true none])).trace).head? = some none :=
  ⟨by decide,
   (open_success_reports_nil_first "/tmp/test_out.txt" tmpDisk (by decide) []).2 true none⟩

/-- C5 (closed signal): at the moment a running stream has received a token
`n` from `fs.Quit` (any integer), only nil has been reported; whatever happens
next, the trace only grows by a prefix of "send `ErrStreamClosed` on `fs.OK`,
close, return", so the next report is the sentinel and it is sent at most once;
and from any later point, once a receiver waits on `fs.OK`, three steps are
enough for `StartStream` to have sent the sentinel exactly once and returned. -/
theorem quit_reports_closed_once (name : String) (d : Disk) (ts : List Tick) (n : Int)
    (hq : (run name d ts).trace.getLast? = some (.recvQuit n)) :
    oks (run name d ts).trace = [none] ∧
    (∀ ts', ∃ tail, tail <+: [.sendOK (some .ErrStreamClosed), .close, .ret] ∧
      (run name d (ts ++ ts')).trace = (run name d ts).trace ++ tail) ∧
    (∀ ts' pick io,
      (run name d (ts ++ ts' ++ [.status, .step pick io, .step pick io, .step pick io])).pc
        = .done ∧
      (run name d (ts ++ ts' ++ [.status, .step pick io, .step pick io, .step pick io])).trace
        = (run name d ts).trace ++ [.sendOK (some .ErrStreamClosed), .close, .ret] ∧
      oks (run name d
        (ts ++ ts' ++ [.status, .step pick io, .step pick io, .step pick io])).trace
        = [none, some .ErrStreamClosed]) := by
  have hinv := Inv_run name d ts
  obtain ⟨hpc, hoks⟩ := l68_of_last_recvQuit name d _ hinv n hq
  have hpast : pastLoop (run name d ts).pc = true := by rw [hpc]; rfl
  have key : ∀ ts', pastLoop (run name d (ts ++ ts')).pc = true ∧
      (run name d (ts ++ ts')).trace ++ pendingActs (run name d (ts ++ ts')).pc
        = (run name d ts).trace ++ [.sendOK (some .ErrStreamClosed), .close, .ret] := by
    intro ts'
    rw [run_append]
    obtain ⟨h1, h2, -⟩ := pastLoop_runFrom ts' _ hpast
    rw [hpc] at h2
    exact ⟨h1, h2⟩
  refine ⟨hoks, fun ts' => ?_, fun ts' pick io => ?_⟩
  · obtain ⟨h1, h2⟩ := key ts'
    generalize run name d (ts ++ ts') = st' at h1 h2
    generalize (run name d ts).trace = tr at h2
    obtain ⟨filename, pc, f, fs, disk, trace⟩ := st'
    cases pc <;> simp [pastLoop] at h1 <;> simp only [pendingActs] at h2
    · exact ⟨[], by simp, by simpa using h2⟩
    · refine ⟨[.sendOK (some .ErrStreamClosed)], by simp [List.prefix_cons_iff], ?_⟩
      have h3 : trace ++ [.close, .ret]
          = (tr ++ [.sendOK (some .ErrStreamClosed)]) ++ [.close, .ret] := by
        simpa using h2
      simpa using List.append_cancel_right h3
    · exact ⟨_, List.prefix_refl _, by simpa using h2⟩
  · have hfin : (run name d
          (ts ++ ts' ++ [.status, .step pick io, .step pick io, .step pick io])).pc = .done ∧
        (run name d
          (ts ++ ts' ++ [.status, .step pick io, .step pick io, .step pick io])).trace
          = (run name d ts).trace ++ [.sendOK (some .ErrStreamClosed), .close, .ret] := by
      obtain ⟨h1, h2⟩ := key ts'
      rw [run_append]
      generalize run name d (ts ++ ts') = st' at h1 h2
      generalize (run name d ts).trace = tr at h2
      obtain ⟨filename, pc, f, fs, disk, trace⟩ := st'
      cases pc <;> simp [pastLoop] at h1 <;> simp only [pendingActs] at h2 <;>
        simp [runFrom, tick, StartStream] <;> simpa using h2
    refine ⟨hfin.1, hfin.2, ?_⟩
    rw [hfin.2, oks_append, hoks]
    rfl

/-- Witness of C5: a ready stream receives the token `-3`. -/
theorem quit_reports_closed_once_witness :
    (run "/tmp/test_out.txt" tmpDisk
      [.status, .step true none, .step true none, .requestQuit (-3),
        .step true none]).trace.getLast? = some (.recvQuit (-3)) ∧
    oks (run "/tmp/test_out.txt" tmpDisk
      [.status, .step true none, .step true none, .requestQuit (-3),
        .step true none]).trace = [none] :=
  ⟨by decide,
   (quit_reports_closed_once "/tmp/test_out.txt" tmpDisk
      [.status, .step true none, .step true none, .requestQuit (-3), .step true none]
      (-3) (by decide)).1⟩

/-- Counterexample to C6 as stated: the stream is ready, "world" has been
submitted on `fs.Write` and not yet accepted, and then a quit token is
submitted; the `select` finds both cases ready and takes the payload, so
"world" is accepted after the quit token was submitted and is in the file when
`StartStream` returns. -/
theorem pending_at_quit_submission_may_be_written :
    (run "/tmp/test_out.txt" tmpDisk raceBefore).fs.Write = [world] ∧
    accepted (run "/tmp/test_out.txt" tmpDisk raceBefore).trace = [] ∧
    (run "/tmp/test_out.txt" tmpDisk (raceBefore ++ raceAfter)).pc = .done ∧
    accepted (run "/tmp/test_out.txt" tmpDisk (raceBefore ++ raceAfter)).trace = [world] ∧
    writes (run "/tmp/test_out.txt" tmpDisk (raceBefore ++ raceAfter)).trace
      = [(world, none)] ∧
    (run "/tmp/test_out.txt" tmpDisk (raceBefore ++ raceAfter)).disk "/tmp/test_out.txt"
      = .file world := by
  decide

/-- C6, amended (pending writes are dropped at quit receipt): once the run loop
has received a quit token, every payload still waiting on `fs.Write` stays
waiting in every continuation (it is never accepted), and no byte is written
to the file any more. -/
theorem pending_at_quit_receipt_dropped (name : String) (d : Disk) (ts : List Tick)
    (n : Int) (hq : Action.recvQuit n ∈ (run name d ts).trace) (ts' : List Tick) :
    (run name d ts).fs.Write <+: (run name d (ts ++ ts')).fs.Write ∧
    written (run name d (ts ++ ts')).trace = written (run name d ts).trace := by
  have hpast := pastLoop_of_recvQuit name d _ (Inv_run name d ts) n hq
  obtain ⟨-, h2, -, h4⟩ := pastLoop_runFrom ts' _ hpast
  rw [← run_append] at h2 h4
  refine ⟨h4, ?_⟩
  have := congrArg written h2
  simpa [written_append, written_pendingActs] using this

/-- Witness of C6, amended: "world" is submitted after the quit token was
received and stays in the queue. -/
theorem pending_at_quit_receipt_dropped_witness :
    Action.recvQuit 0 ∈ (run "/tmp/test_out.txt" tmpDisk
      [.status, .step true none, .step true none, .requestQuit 0, .step true none,
        .submit world]).trace ∧
    written (run "/tmp/test_out.txt" tmpDisk
      ([.status, .step true none, .step true none, .requestQuit 0, .step true none,
        .submit world] ++ [.status, .step true none, .step true none])).trace
      = written (run "/tmp/test_out.txt" tmpDisk
        [.status, .step true none, .step true none, .requestQuit 0, .step true none,
          .submit world]).trace :=
  ⟨by decide,
   (pending_at_quit_receipt_dropped "/tmp/test_out.txt" tmpDisk
      [.status, .step true none, .step true none, .requestQuit 0, .step true none,
        .submit world] 0 (by decide)
      [.status, .step true none, .step true none]).2⟩

/-- C7 (no drain after quit): once the run loop has received a quit token, in
every continuation (also with producers still submitting and waiting) it
accepts no further payload and makes no further call of `f.WriteString`, and
the disk stays as it was at that moment, in particular when `StartStream` has
returned. -/
theorem no_write_after_quit_received (name : String) (d : Disk) (ts : List Tick)
    (n : Int) (hq : Action.recvQuit n ∈ (run name d ts).trace) (ts' : List Tick) :
    accepted (run name d (ts ++ ts')).trace = accepted (run name d ts).trace ∧
    writes (run name d (ts ++ ts')).trace = writes (run name d ts).trace ∧
    (run name d (ts ++ ts')).disk = (run name d ts).disk := by
  have hpast := pastLoop_of_recvQuit name d _ (Inv_run name d ts) n hq
  obtain ⟨-, h2, h3, -⟩ := pastLoop_runFrom ts' _ hpast
  rw [← run_append] at h2 h3
  refine ⟨?_, ?_, h3⟩
  · have := congrArg accepted h2
    simpa [accepted_append, accepted_pendingActs] using this
  · have := congrArg writes h2
    simpa [writes_append, writes_pendingActs] using this

/-- Witness of C7: after "hello " was written and the quit token received,
"world" is submitted; the stream returns and the file still holds "hello ". -/
theorem no_write_after_quit_received_witness :
    Action.recvQuit 1 ∈ (run "/tmp/test_out.txt" tmpDisk
      [.status, .step true none, .step true none, .submit hello, .step true none,
        .step true none, .requestQuit 1, .step true none]).trace ∧
    (run "/tmp/test_out.txt" tmpDisk
      ([.status, .step true none, .step true none, .submit hello, .step true none,
        .step true none, .requestQuit 1, .step true none]
        ++ [.submit world, .status, .step true none, .step true none])).disk
      = (run "/tmp/test_out.txt" tmpDisk
        [.status, .step true none, .step true none, .submit hello, .step true none,
          .step true none, .requestQuit 1, .step true none]).disk :=
  ⟨by decide,
   (no_write_after_quit_received "/tmp/test_out.txt" tmpDisk
      [.status, .step true none, .step true none, .submit hello, .step true none,
        .step true none, .requestQuit 1, .step true none] 1 (by decide)
      [.submit world, .status, .step true none, .step true none]).2.2⟩

/-- C8 (silent write failure): the execution along a schedule and the
execution along the same schedule with every write succeeding are at the same
statement with the same channel queues and the same handle, have sent the same
values on `fs.OK`, accepted the same payloads and done the same actions up to
the outcomes of the writes; and a failing `f.WriteString` at line 66 sends
nothing on `fs.OK` and goes back to the `select` of line 64. -/
theorem write_failure_is_silent (name : String) (d : Disk) (ts : List Tick) :
    (run name d ts).pc = (run name d (ts.map succeed)).pc ∧
    (run name d ts).fs = (run name d (ts.map succeed)).fs ∧
    (run name d ts).f = (run name d (ts.map succeed)).f ∧
    oks (run name d ts).trace = oks (run name d (ts.map succeed)).trace ∧
    accepted (run name d ts).trace = accepted (run name d (ts.map succeed)).trace ∧
    (run name d ts).trace.map forget = (run name d (ts.map succeed)).trace ∧
    (∀ (st : State) (out : GoString) (pick : Bool) (k : Nat),
      (StartStream { st with pc := .l66 out } pick (some k)).pc = .l64 ∧
      (StartStream { st with pc := .l66 out } pick (some k)).fs = st.fs ∧
      oks (StartStream { st with pc := .l66 out } pick (some k)).trace = oks st.trace) := by
  have h : Sim (run name d ts) (run name d (ts.map succeed)) :=
    Sim_runFrom ts _ _ ⟨rfl, rfl, rfl, rfl, rfl, fun _ => rfl⟩
  obtain ⟨-, h2, h3, h4, h5, -⟩ := h
  refine ⟨h2, h4, h3, ?_, ?_, h5, ?_⟩
  · rw [← h5, oks_map_forget]
  · rw [← h5, accepted_map_forget]
  · intro st out pick k
    simp [StartStream, oks_append, oks]

/-- C9 (release of the file): an execution that has returned after a
successful open has closed the file exactly once, as the action right after
the report of `ErrStreamClosed` and after every call of `f.WriteString`; one
that has returned after a failed open never had a handle and closed nothing;
and whenever `f.WriteString` is about to be called the handle is open and
nothing has been closed. -/
theorem file_closed_exactly_once (name : String) (d : Disk) (ts : List Tick) :
    ((run name d ts).pc = .done →
      (opens d name = true ∧ (run name d ts).f = .closed ∧
        closes (run name d ts).trace = 1 ∧
        ∃ pre, (run name d ts).trace
            = pre ++ [.sendOK (some .ErrStreamClosed), .close, .ret] ∧
          closes pre = 0 ∧ writes pre = writes (run name d ts).trace) ∨
      ((∃ msg, d name = .unopenable msg) ∧ (run name d ts).f = .unopened ∧
        closes (run name d ts).trace = 0)) ∧
    (∀ out, (run name d ts).pc = .l66 out →
      (run name d ts).f = .opened ∧ closes (run name d ts).trace = 0) := by
  have hinv := Inv_run name d ts
  generalize run name d ts = st at hinv
  cases hd : d name with
  | unopenable msg =>
    obtain ⟨-, -, hf, h⟩ := failed_cases name d msg hd st hinv
    rcases h with ⟨hpc, ht⟩ | ⟨hpc, ht⟩ | ⟨hpc, ht⟩ | ⟨hpc, ht⟩ <;>
      simp [hpc, ht, hf, closes]
  | _ =>
    have hopen : opens d name = true := by simp [opens, hd]
    rcases opened_cases name d hopen st hinv with
      ⟨hpc, ht, -⟩ | ⟨hpc, ht, -⟩ | ⟨its, tail, ht, -, h⟩
    · simp [hpc]
    · simp [hpc]
    · rcases h with ⟨hpc, htl, hf⟩ | ⟨hpc, htl, hf⟩ | ⟨out, hpc, htl, hf⟩ |
        ⟨n, hpc, htl, hf⟩ | ⟨n, hpc, htl, hf⟩ | ⟨n, hpc, htl, hf⟩
      · simp [hpc]
      · simp [hpc]
      · subst htl
        simp [hpc, hf, ht, liveTrace, closes, closes_append, closes_body]
      · simp [hpc]
      · simp [hpc]
      · subst htl
        refine ⟨fun _ => Or.inl ⟨hopen, hf, ?_, ?_⟩, by simp [hpc]⟩
        · simp [ht, liveTrace, closes, closes_append, closes_body]
        · refine ⟨.openFile name none :: .sendOK none :: (body its ++ [.recvQuit n]),
            by simp [ht, liveTrace], ?_, ?_⟩
          · simp [closes, closes_append, closes_body]
          · simp [ht, liveTrace, writes, writes_append]

/-- Witness of C9: the documented session returns with the file closed once. -/
theorem file_closed_exactly_once_witness :
    (run "/tmp/test_out.txt" tmpDisk (session [hello, world] 0)).pc = .done ∧
    closes (run "/tmp/test_out.txt" tmpDisk (session [hello, world] 0)).trace = 1 ∧
    ((opens tmpDisk "/tmp/test_out.txt" = true ∧
        (run "/tmp/test_out.txt" tmpDisk (session [hello, world] 0)).f = .closed ∧
        closes (run "/tmp/test_out.txt" tmpDisk (session [hello, world] 0)).trace = 1 ∧
        ∃ pre, (run "/tmp/test_out.txt" tmpDisk (session [hello, world] 0)).trace
            = pre ++ [.sendOK (some .ErrStreamClosed), .close, .ret] ∧
          closes pre = 0 ∧
          writes pre
            = writes (run "/tmp/test_out.txt" tmpDisk (session [hello, world] 0)).trace) ∨
      ((∃ msg, tmpDisk "/tmp/test_out.txt" = .unopenable msg) ∧
        (run "/tmp/test_out.txt" tmpDisk (session [hello, world] 0)).f = .unopened ∧
        closes (run "/tmp/test_out.txt" tmpDisk (session [hello, world] 0)).trace = 0)) :=
  ⟨by decide, by decide,
   (file_closed_exactly_once "/tmp/test_out.txt" tmpDisk (session [hello, world] 0)).1
     (by decide)⟩

/-- C10 (size of the file): when the open succeeds, the output file has size
0 right after the open; from then on no event makes it smaller; a successful
`f.WriteString(out)` makes it larger by `len(out)`; every other event (an idle
iteration, the receipt of a payload or of a quit token, a report, the close,
what other goroutines do) leaves it unchanged; and when `StartStream` has
returned without a failed write the size is the sum of the byte lengths of the
accepted payloads. -/
theorem file_size_monotone (name : String) (d : Disk) (hopen : opens d name = true)
    (ts : List Tick) :
    ((run name d ts).pc = .l62 → fileSize (run name d ts).disk name = 0) ∧
    ((run name d ts).pc ≠ .l55 → ∀ t,
      fileSize (run name d ts).disk name ≤ fileSize (run name d (ts ++ [t])).disk name) ∧
    (∀ out pick, (run name d ts).pc = .l66 out →
      fileSize (run name d (ts ++ [.step pick none])).disk name
        = fileSize (run name d ts).disk name + out.length) ∧
    ((run name d ts).pc ≠ .l55 → (∀ out, (run name d ts).pc ≠ .l66 out) → ∀ t,
      fileSize (run name d (ts ++ [t])).disk name = fileSize (run name d ts).disk name) ∧
    ((run name d ts).pc = .done → noWriteFailed (run name d ts).trace = true →
      fileSize (run name d ts).disk name = totalLen (accepted (run name d ts).trace)) := by
  have hinv := Inv_run name d ts
  refine ⟨fun hpc => ?_, fun h55 t => ?_, fun out pick hpc => ?_, fun h55 h66 t => ?_,
    fun hpc hok => ?_⟩
  · rcases opened_cases name d hopen _ hinv with
      ⟨hpc', -⟩ | ⟨-, -, -, hdisk⟩ | ⟨its, tail, -, -, h⟩
    · rw [hpc] at hpc'; cases hpc'
    · simp [fileSize, hdisk]
    · rw [hpc] at h
      simp at h
  · rw [run_snoc]
    by_cases h66 : ∀ out, (run name d ts).pc ≠ .l66 out
    · rw [disk_tick_of_not_write _ t h55 h66]
    · push_neg at h66
      obtain ⟨out, hpc⟩ := h66
      cases t with
      | step pick io =>
        have := fileSize_write name d _ hinv out hpc pick io
        simp only [tick]
        omega
      | submit s => exact Nat.le_refl _
      | requestQuit n => exact Nat.le_refl _
      | status => exact Nat.le_refl _
  · rw [run_snoc]
    exact fileSize_write name d _ hinv out hpc pick none
  · rw [run_snoc, disk_tick_of_not_write _ t h55 h66]
  · rw [fileSize, disk_of_returned name d ts hopen hpc hok]
    exact length_concat _

/-- Witness of C10: after "hello " then "world" the file has 11 bytes. -/
theorem file_size_monotone_witness :
    opens tmpDisk "/tmp/test_out.txt" = true ∧
    (run "/tmp/test_out.txt" tmpDisk (session [hello, world] 0)).pc = .done ∧
    noWriteFailed (run "/tmp/test_out.txt" tmpDisk (session [hello, world] 0)).trace = true ∧
    fileSize (run "/tmp/test_out.txt" tmpDisk (session [hello, world] 0)).disk
        "/tmp/test_out.txt"
      = totalLen (accepted (run "/tmp/test_out.txt" tmpDisk
          (session [hello, world] 0)).trace) ∧
    totalLen (accepted (run "/tmp/test_out.txt" tmpDisk
      (session [hello, world] 0)).trace) = 11 :=
  ⟨by decide, by decide, by decide,
   (file_size_monotone "/tmp/test_out.txt" tmpDisk (by decide)
      (session [hello, world] 0)).2.2.2.2 (by decide) (by decide),
   by decide⟩

end filestream
